import Mathlib

/-!
Shallow embedding of `src/webcontainer-transport.ts` (class `WebContainerTransport`).

The embedding covers:
* the frame decoder `_handleProcessOutput` (ANSI stripping, carriage-return and
  escape removal, buffering, newline splitting, blank-line skipping, and the
  per-line parse/validate/deliver loop with its swallow-all catch);
* the lifecycle operations `start`, `send`, `close`, modelled as pure functions
  over an explicit transport state, with the outcomes of the external
  WebContainer collaborator calls (boot, mount, spawn, write, kill, teardown)
  supplied as boolean oracles, and with the observable effects (status
  callbacks, error callbacks, spawned commands, awaited delays, the close
  callback) returned as explicit lists or event traces.

External collaborators (the WebContainer runtime, the JS `JSON.parse`, and the
`JSONRPCMessageSchema` validator of the MCP SDK) are not code of this
repository; they are represented at their interface boundary, exactly as the
source consumes them: the validator is an arbitrary function returning
`Except` (it can fail), the sandbox calls are oracles that either succeed or
throw.
-/

namespace WCT

/-! ### Frame decoder: characters and cleaning

Source, `_handleProcessOutput` lines 190-191:
  data = data.replace(/\x1b\[[0-9;]*[a-zA-Z]/g, "");
  data = data.replace(/[\r\x1b]/g, "");
-/

/-- The ASCII escape character, `\x1b`, which opens an ANSI control sequence. -/
def esc : Char := '\x1b'

/-- Characters matched by the `[0-9;]` class of the ANSI regex. -/
def isParamChar (c : Char) : Bool := ('0' ≤ c && c ≤ '9') || c = ';'

/-- Characters matched by the `[a-zA-Z]` class of the ANSI regex. -/
def isAsciiLetter (c : Char) : Bool :=
  ('a' ≤ c && c ≤ 'z') || ('A' ≤ c && c ≤ 'Z')

/-- Given the characters that follow an `\x1b`, try to match the rest of the
regex `\[[0-9;]*[a-zA-Z]`: an opening bracket, a run of parameter characters,
then one ASCII letter.  Returns the remainder after the match.  Since the
parameter class and the letter class are disjoint, the greedy match of the
regex engine is deterministic and this function is exact. -/
def matchCsi : List Char → Option (List Char)
  | '[' :: rest =>
    match rest.dropWhile isParamChar with
    | c :: rest2 => if isAsciiLetter c then some rest2 else none
    | [] => none
  | _ => none

/-- One pass of the global replace `data.replace(/\x1b\[[0-9;]*[a-zA-Z]/g, "")`:
scan left to right; at an `\x1b` try to match a full control sequence and drop
it; on a failed match keep the character and resume at the next position,
exactly as a global regex replace does.  The recursion consumes at least one
character per step, so fuel equal to the input length suffices; the fuel-0
branch is unreachable for `stripAnsi`. -/
def stripAnsiF : Nat → List Char → List Char
  | _, [] => []
  | 0, l => l
  | fuel + 1, c :: rest =>
    if c = esc then
      match matchCsi rest with
      | some rest2 => stripAnsiF fuel rest2
      | none => c :: stripAnsiF fuel rest
    else c :: stripAnsiF fuel rest

/-- `data.replace(/\x1b\[[0-9;]*[a-zA-Z]/g, "")` on a list of characters. -/
def stripAnsi (l : List Char) : List Char := stripAnsiF l.length l

/-- The two replaces of lines 190-191: strip ANSI control sequences, then
remove every residual carriage return and escape character
(`data.replace(/[\r\x1b]/g, "")`). -/
def cleanChunk (l : List Char) : List Char :=
  (stripAnsi l).filter (fun c => !(c = '\r' || c = esc))

/-! ### Frame decoder: buffering and splitting

Source, lines 193-195:
  this._outputBuffer += data;
  const lines = this._outputBuffer.split(/\r?\n/);
  this._outputBuffer = lines.pop() || "";
-/

/-- Prepend a character to the first segment of a split result
(used to build `split` results right to left). -/
def consHead (c : Char) : List (List Char) → List (List Char)
  | [] => [[c]]
  | s :: ss => (c :: s) :: ss

/-- `str.split(/\r?\n/)` on a list of characters: every `\n`, optionally
preceded by `\r`, is a separator; a `\r` not followed by `\n` is ordinary
content.  The result always has at least one segment. -/
def splitRN : List Char → List (List Char)
  | [] => [[]]
  | c :: rest =>
    if c = '\n' then [] :: splitRN rest
    else if c = '\r' then
      match rest with
      | c2 :: rest2 =>
        if c2 = '\n' then [] :: splitRN rest2
        else consHead c (splitRN (c2 :: rest2))
      | [] => [[c]]
    else consHead c (splitRN rest)

/-- Lines 193-195 of the source: clean the chunk, append it to the buffer,
split, keep the last segment as the new buffer (`lines.pop() || ""`), and
return the completed segments as candidate lines. -/
def processChunk (buf data : List Char) : List Char × List (List Char) :=
  let all := buf ++ cleanChunk data
  let segs := splitRN all
  (segs.getLastD [], segs.dropLast)

/-! ### Frame decoder: the delivery loop

Source, lines 197-207:
  for (const line of lines) {
    if (!line.trim()) continue;
    try {
      const parsed = JSON.parse(line);
      const message = JSONRPCMessageSchema.parse(parsed);
      this.onmessage?.(message);
    } catch (error) {}
  }
-/

/-- The whitespace class of the JavaScript `String.prototype.trim`
(restricted to the ASCII whitespace characters that can occur here). -/
def isJsSpace (c : Char) : Bool :=
  c = ' ' || c = '\t' || c = '\n' || c = '\r' || c = '\x0b' || c = '\x0c'

/-- `line.trim()` on a list of characters. -/
def jsTrim (l : List Char) : List Char :=
  ((l.dropWhile isJsSpace).reverse.dropWhile isJsSpace).reverse

/-- The per-line loop of `_handleProcessOutput`.  The composite
`JSON.parse` / `JSONRPCMessageSchema.parse` step is the external validator
`v`; it either returns a message or fails.  A blank line is skipped; a
failing line is dropped by the empty catch block and the loop continues; a
successful line has its message delivered to the message callback, collected
here in order.  The function is total: no failure escapes the loop, and the
loop never invokes the error callback. -/
def deliverLines {α : Type} (v : List Char → Except String α) :
    List (List Char) → List α
  | [] => []
  | l :: ls =>
    if jsTrim l = [] then deliverLines v ls
    else
      match v l with
      | .ok m => m :: deliverLines v ls
      | .error _ => deliverLines v ls

/-- The whole of `_handleProcessOutput`: clean, buffer, split, then run the
delivery loop on the completed lines.  Returns the new buffer and the
messages delivered to the message callback by this call. -/
def handleProcessOutput {α : Type} (v : List Char → Except String α)
    (buf data : List Char) : List Char × List α :=
  let r := processChunk buf data
  (r.1, deliverLines v r.2)

/-- Feed a sequence of chunks through the decoder, starting from a given
buffer, collecting every candidate line in delivery order (line level). -/
def feedManyLines (buf : List Char) : List (List Char) → List Char × List (List Char)
  | [] => (buf, [])
  | d :: ds =>
    let r := processChunk buf d
    let r2 := feedManyLines r.1 ds
    (r2.1, r.2 ++ r2.2)

/-- Feed a sequence of chunks through `_handleProcessOutput`, collecting every
message delivered to the message callback in order (callback level). -/
def feedManyMsgs {α : Type} (v : List Char → Except String α)
    (buf : List Char) : List (List Char) → List Char × List α
  | [] => (buf, [])
  | d :: ds =>
    let r := handleProcessOutput v buf d
    let r2 := feedManyMsgs v r.1 ds
    (r2.1, r.2 ++ r2.2)

/-! ### Lifecycle: data model

Source, the option types `FileBasedOptions` / `SpawnBasedOptions`, the status
union of `onStatusChange`, and the private fields of `WebContainerTransport`.
-/

/-- The argument union of the `onStatusChange` callback. -/
inductive Status
  | booting | mounting | installing | running | unmounting | teardowned
deriving DecidableEq, Repr

/-- `FileBasedOptions`: the file mapping (a JS record, modelled as an
association list with distinct keys in insertion order) and the optional
entrypoint.  `bootOptions` and the callbacks are opaque to the claims. -/
structure FilesOpts where
  files : List (String × String)
  entrypoint : Option String
deriving DecidableEq, Repr

/-- `SpawnBasedOptions`: command, arguments, optional environment mapping. -/
structure SpawnOpts where
  command : String
  args : List String
  env : Option (List (String × String))
deriving DecidableEq, Repr

/-- The tagged union `WebContainerTransportOptions`. -/
inductive TOpts
  | files (o : FilesOpts)
  | spawn (o : SpawnOpts)
deriving DecidableEq, Repr

/-- `record[key]` on the file mapping. -/
def lookupFile (files : List (String × String)) (k : String) : Option String :=
  (files.find? (fun p => p.1 == k)).map Prod.snd

/-- The install guard of line 103, `if (this._options.files["package.json"])`:
JavaScript truthiness of the looked-up string, which is true exactly when the
key is present and its content is a non-empty string. -/
def manifestTruthy (files : List (String × String)) : Bool :=
  match lookupFile files "package.json" with
  | some v => v ≠ ""
  | none => false

/-- Line 110, `this._options.entrypoint || "index.js"`: the default also
applies to an empty-string entrypoint (JS truthiness). -/
def entrypointOf (o : FilesOpts) : String :=
  match o.entrypoint with
  | some e => if e = "" then "index.js" else e
  | none => "index.js"

/-- The mutable fields of the transport that the claims are about:
`_started`, `_initialized`, and whether `_webContainer` and `_process`
currently hold a handle. -/
structure TState where
  started : Bool
  initialized : Bool
  hasWC : Bool
  hasProc : Bool
deriving DecidableEq, Repr

/-- Outcomes of the external WebContainer calls made during `start()`:
whether `WebContainer.boot`, `mount`, the `npm install` spawn (together with
awaiting its exit), and the main `spawn` succeed or throw. -/
structure Env where
  bootOk : Bool
  mountOk : Bool
  installOk : Bool
  spawnOk : Bool
deriving DecidableEq, Repr

/-- The errors the transport can raise or pass to `onerror`. -/
inductive TErr
  | alreadyStarted | bootFail | mountFail | installFail | spawnFail
  | notStarted | getWriterFail | writeFail
deriving DecidableEq, Repr

instance {ε α : Type} [DecidableEq ε] [DecidableEq α] : DecidableEq (Except ε α) :=
  fun a b =>
    match a, b with
    | .ok x, .ok y =>
      if h : x = y then isTrue (by rw [h]) else isFalse (fun hh => h (Except.ok.inj hh))
    | .ok _, .error _ => isFalse Except.noConfusion
    | .error _, .ok _ => isFalse Except.noConfusion
    | .error e, .error f =>
      if h : e = f then isTrue (by rw [h]) else isFalse (fun hh => h (Except.error.inj hh))

/-! ### Lifecycle: `start()`

Source lines 82-137.  The observable effects are returned explicitly:
`statuses` is the sequence of `onStatusChange` invocations, `spawns` the
sequence of `(command, args)` pairs passed to `webContainer.spawn`,
`errors` the sequence of `onerror` invocations, `result` the settled value of
the returned promise.
-/

/-- Result record of one `start()` call. -/
structure StartResult where
  state : TState
  statuses : List Status
  spawns : List (String × List String)
  errors : List TErr
  result : Except TErr Unit
deriving DecidableEq, Repr

/-- `start()`, translated line by line.  The guard throws before the `try`
block, so neither a status nor `onerror` fires and the state is unchanged.
Inside the `try`, `_started` is set first; each external call either succeeds
or throws into the `catch`, which resets `_started` to `false` (only that
field), fires `onerror` with the causing error, and re-throws it.  On the
files branch the mount, the truthiness-guarded `npm install`, and the
`node <entrypoint>` spawn run in order; on the spawn branch the configured
command is spawned directly.  On success the process handle is stored,
its output is piped into `_handleProcessOutput`, and `_initialized` is set. -/
def start (env : Env) (opts : TOpts) (st : TState) : StartResult :=
  if st.started then
    ⟨st, [], [], [], .error .alreadyStarted⟩
  else
    -- try: this._started = true; onStatusChange("booting"); await WebContainer.boot(...)
    let st1 : TState := { st with started := true }
    if env.bootOk then
      let st2 : TState := { st1 with hasWC := true }
      match opts with
      | .files o =>
        -- onStatusChange("mounting"); await this._webContainer.mount(...)
        if env.mountOk then
          if manifestTruthy o.files then
            -- onStatusChange("installing"); spawn("npm", ["install"]); await exit
            if env.installOk then
              -- onStatusChange("running"); spawn("node", [entrypoint])
              if env.spawnOk then
                ⟨{ st2 with hasProc := true, initialized := true },
                  [.booting, .mounting, .installing, .running],
                  [("npm", ["install"]), ("node", [entrypointOf o])], [], .ok ()⟩
              else
                ⟨{ st2 with started := false },
                  [.booting, .mounting, .installing, .running],
                  [("npm", ["install"]), ("node", [entrypointOf o])],
                  [.spawnFail], .error .spawnFail⟩
            else
              ⟨{ st2 with started := false },
                [.booting, .mounting, .installing],
                [("npm", ["install"])], [.installFail], .error .installFail⟩
          else
            if env.spawnOk then
              ⟨{ st2 with hasProc := true, initialized := true },
                [.booting, .mounting, .running],
                [("node", [entrypointOf o])], [], .ok ()⟩
            else
              ⟨{ st2 with started := false },
                [.booting, .mounting, .running],
                [("node", [entrypointOf o])], [.spawnFail], .error .spawnFail⟩
        else
          ⟨{ st2 with started := false }, [.booting, .mounting], [],
            [.mountFail], .error .mountFail⟩
      | .spawn o =>
        -- onStatusChange("running"); spawn(command, args, env)
        if env.spawnOk then
          ⟨{ st2 with hasProc := true, initialized := true },
            [.booting, .running], [(o.command, o.args)], [], .ok ()⟩
        else
          ⟨{ st2 with started := false }, [.booting, .running],
            [(o.command, o.args)], [.spawnFail], .error .spawnFail⟩
    else
      ⟨{ st1 with started := false }, [.booting], [], [.bootFail], .error .bootFail⟩

/-! ### `send()`

Source lines 139-153.  The writer lock of the process input stream is the one
piece of stream state `send` touches: `getWriter()` throws when the stream is
already locked, `releaseLock()` is reached only after a successful
`writer.write`.  `writeOk` is the outcome oracle of the external write; the
serialized payload itself is not the subject of any claim and is not
modelled. -/

/-- Result record of one `send()` call: the (unchanged) transport state, the
writer-lock state of the process input stream after the call, the `onerror`
invocations, and the settled result. -/
structure SendResult where
  state : TState
  locked : Bool
  errors : List TErr
  result : Except TErr Unit
deriving DecidableEq, Repr

/-- `send(message)`, translated line by line.  Without a process handle it
throws "Transport not started" before the `try`, so `onerror` does not fire.
Otherwise `getWriter()` either throws (stream already locked; caught, so
`onerror` fires and the error propagates) or acquires the lock; a successful
`write` is followed by `releaseLock()`; a failing `write` throws into the
`catch`, which fires `onerror` and re-throws — no release step runs on that
path. -/
def send (writeOk : Bool) (st : TState) (locked : Bool) : SendResult :=
  if st.hasProc then
    if locked then
      ⟨st, locked, [.getWriterFail], .error .getWriterFail⟩
    else if writeOk then
      ⟨st, false, [], .ok ()⟩
    else
      ⟨st, true, [.writeFail], .error .writeFail⟩
  else
    ⟨st, locked, [], .error .notStarted⟩

/-! ### `close()`

Source lines 155-184, modelled as an event trace so that ordering between the
kill attempt, the fixed 1000 ms delay, the teardown attempt, the status
callbacks and the close callback is expressible. -/

/-- Observable events of one `close()` call, in program order. -/
inductive CEv
  | status (s : Status)
  | killAttempt
  | delayMs (n : Nat)
  | teardownAttempt
  | closeCb
deriving DecidableEq, Repr

/-- Result record of one `close()` call. -/
structure CloseResult where
  state : TState
  events : List CEv
deriving DecidableEq, Repr

/-- `close()`, translated line by line.  If `_started`, fire the "unmounting"
status.  If a process handle exists: inside a `try`, call `kill?.()` and then
await the fixed 1000 ms timeout; a throwing `kill` jumps to the empty `catch`,
skipping the delay (`killOk` is false exactly when `kill` exists and throws);
the handle is cleared either way.  If an environment handle exists: inside a
`try`, fire the "teardowned" status and call `teardown()`; a teardown failure
is swallowed and changes nothing observable, and the handle is cleared either
way.  Finally both flags are reset and `onclose` fires, unconditionally. -/
def close (killOk teardownOk : Bool) (st : TState) : CloseResult :=
  let e1 : List CEv := if st.started then [.status .unmounting] else []
  let e2 : List CEv :=
    if st.hasProc then
      if killOk then [.killAttempt, .delayMs 1000] else [.killAttempt]
    else []
  let e3 : List CEv := if st.hasWC then [.status .teardowned, .teardownAttempt] else []
  ⟨⟨false, false, false, false⟩, e1 ++ e2 ++ e3 ++ [.closeCb]⟩

/-- The status-callback invocations contained in a `close()` event trace. -/
def statusEvents (evs : List CEv) : List Status :=
  evs.filterMap (fun e => match e with | .status s => some s | _ => none)

/-- The `TransportState` invariant of the specification: `initialized`
implies `started`, and a process handle is held only while `started` is true
and boot succeeded (the environment handle is held). -/
def Inv (st : TState) : Prop :=
  (st.initialized = true → st.started = true) ∧
  (st.hasProc = true → st.started = true ∧ st.hasWC = true)

instance (st : TState) : Decidable (Inv st) := by
  unfold Inv; infer_instance

/-! ### Auxiliary definitions for the chunking-invariance analysis -/

/-- Prepend a prefix to the first segment of a split result (the shape in
which a buffered tail recombines with the split of later input). -/
def consFirst (t : List Char) : List (List Char) → List (List Char)
  | [] => [t]
  | s :: ss => (t ++ s) :: ss

/-- The buffering-and-splitting step applied to already-cleaned text:
append to the buffer, split, return the new buffer and the completed lines.
`processChunk buf d` is definitionally `processRaw buf (cleanChunk d)`. -/
def processRaw (buf x : List Char) : List Char × List (List Char) :=
  let segs := splitRN (buf ++ x)
  (segs.getLastD [], segs.dropLast)

/-- A concrete trivial validator (rejects every line); used to instantiate
validator parameters at concrete inputs. -/
def rejectAll : List Char → Except String Unit := fun _ => .error "invalid"

end WCT

namespace WCT

/-! ## Helper lemmas about the frame decoder -/

theorem consHead_ne_nil (c : Char) (ss : List (List Char)) : consHead c ss ≠ [] := by
  cases ss <;> simp [consHead]

theorem splitRN_ne_nil (l : List Char) : splitRN l ≠ [] := by
  match l with
  | [] => simp [splitRN]
  | c :: rest =>
    unfold splitRN
    split
    · simp
    · split
      · split
        · split
          · simp
          · exact consHead_ne_nil _ _
        · simp
      · exact consHead_ne_nil _ _

theorem flatten_consHead (a : Char) (L : List (List Char)) :
    (consHead a L).flatten = a :: L.flatten := by
  cases L <;> simp [consHead]

theorem splitRN_cons_nl (rest : List Char) :
    splitRN ('\n' :: rest) = [] :: splitRN rest := by
  rw [splitRN.eq_def]; rfl

theorem splitRN_crlf (rest : List Char) :
    splitRN ('\r' :: '\n' :: rest) = [] :: splitRN rest := by
  rw [splitRN.eq_def]; rfl

theorem splitRN_cr_single : splitRN ['\r'] = [['\r']] := by
  rw [splitRN.eq_def]; rfl

theorem splitRN_cr_cons (c2 : Char) (rest2 : List Char) (h : c2 ≠ '\n') :
    splitRN ('\r' :: c2 :: rest2) = consHead '\r' (splitRN (c2 :: rest2)) := by
  rw [splitRN.eq_def]
  simp only [if_neg h]
  rfl

theorem splitRN_cons (c : Char) (rest : List Char) (h1 : c ≠ '\n') (h2 : c ≠ '\r') :
    splitRN (c :: rest) = consHead c (splitRN rest) := by
  rw [splitRN.eq_def]
  simp only [if_neg h1, if_neg h2]

theorem mem_flatten_splitRN (l : List Char) (c : Char)
    (h : c ∈ (splitRN l).flatten) : c ∈ l := by
  induction l with
  | nil => simp [splitRN] at h
  | cons c0 rest ih =>
    by_cases h1 : c0 = '\n'
    · subst h1
      rw [splitRN_cons_nl] at h
      simp only [List.flatten_cons, List.nil_append] at h
      exact List.mem_cons_of_mem _ (ih h)
    · by_cases h2 : c0 = '\r'
      · subst h2
        match rest with
        | [] =>
          rw [splitRN_cr_single] at h
          simp at h
          simp [h]
        | c2 :: rest2 =>
          by_cases h3 : c2 = '\n'
          · subst h3
            rw [splitRN_crlf] at h
            simp only [List.flatten_cons, List.nil_append] at h
            have h4 : c ∈ (splitRN ('\n' :: rest2)).flatten := by
              rw [splitRN_cons_nl]
              simpa using h
            exact List.mem_cons_of_mem _ (ih h4)
          · rw [splitRN_cr_cons c2 rest2 h3] at h
            rw [flatten_consHead] at h
            rcases List.mem_cons.mp h with h4 | h4
            · simp [h4]
            · exact List.mem_cons_of_mem _ (ih h4)
      · rw [splitRN_cons c0 rest h1 h2] at h
        rw [flatten_consHead] at h
        rcases List.mem_cons.mp h with h3 | h3
        · simp [h3]
        · exact List.mem_cons_of_mem _ (ih h3)

theorem getLastD_irrel {α : Type} (L : List α) (h : L ≠ []) (d1 d2 : α) :
    L.getLastD d1 = L.getLastD d2 := by
  rw [List.getLastD_eq_getLast?, List.getLastD_eq_getLast?]
  cases hL : L.getLast? with
  | none => exact absurd (by simpa using hL) h
  | some a => rfl

theorem getLastD_append {α : Type} (P Q : List α) (hQ : Q ≠ []) (d : α) :
    (P ++ Q).getLastD d = Q.getLastD d := by
  induction P generalizing d with
  | nil => rfl
  | cons p ps ih =>
    rw [List.cons_append, List.getLastD_cons, ih p]
    exact getLastD_irrel Q hQ p d

theorem nl_not_mem_lastSeg (l : List Char) : '\n' ∉ (splitRN l).getLastD [] := by
  induction l with
  | nil => simp [splitRN]
  | cons c0 rest ih =>
    by_cases h1 : c0 = '\n'
    · subst h1
      rw [splitRN_cons_nl, List.getLastD_cons]
      rw [getLastD_irrel (splitRN rest) (splitRN_ne_nil rest) [] []] at ih
      rw [getLastD_irrel (splitRN rest) (splitRN_ne_nil rest) _ []]
      exact ih
    · by_cases h2 : c0 = '\r'
      · subst h2
        match rest with
        | [] =>
          rw [splitRN_cr_single]
          simp
        | c2 :: rest2 =>
          by_cases h3 : c2 = '\n'
          · subst h3
            rw [splitRN_crlf, List.getLastD_cons]
            rw [getLastD_irrel (splitRN rest2) (splitRN_ne_nil rest2) _ []]
            intro hmem
            have h4 : '\n' ∈ (splitRN ('\n' :: rest2)).getLastD [] := by
              rw [splitRN_cons_nl, List.getLastD_cons]
              rw [getLastD_irrel (splitRN rest2) (splitRN_ne_nil rest2) _ []]
              exact hmem
            exact ih h4
          · rw [splitRN_cr_cons c2 rest2 h3]
            cases hS : splitRN (c2 :: rest2) with
            | nil => exact absurd hS (splitRN_ne_nil _)
            | cons s ss =>
              rw [hS] at ih
              cases ss with
              | nil =>
                simp only [consHead, List.getLastD_cons] at ih ⊢
                intro hmem
                rcases List.mem_cons.mp hmem with h4 | h4
                · exact absurd h4.symm (by decide)
                · exact ih (by simpa using h4)
              | cons s2 ss2 =>
                simp only [consHead, List.getLastD_cons] at ih ⊢
                exact ih
      · rw [splitRN_cons c0 rest h1 h2]
        cases hS : splitRN rest with
        | nil => exact absurd hS (splitRN_ne_nil _)
        | cons s ss =>
          rw [hS] at ih
          cases ss with
          | nil =>
            simp only [consHead, List.getLastD_cons] at ih ⊢
            intro hmem
            rcases List.mem_cons.mp hmem with h4 | h4
            · exact absurd h4.symm h1
            · exact ih (by simpa using h4)
          | cons s2 ss2 =>
            simp only [consHead, List.getLastD_cons] at ih ⊢
            exact ih

theorem splitRN_single (l : List Char) (h : ∀ c ∈ l, c ≠ '\n' ∧ c ≠ '\r') :
    splitRN l = [l] := by
  induction l with
  | nil => rfl
  | cons c0 rest ih =>
    have hc := h c0 (List.mem_cons_self _ _)
    rw [splitRN_cons c0 rest hc.1 hc.2]
    rw [ih (fun c hm => h c (List.mem_cons_of_mem _ hm))]
    rfl

theorem consFirst_nil_left (L : List (List Char)) (h : L ≠ []) :
    consFirst [] L = L := by
  cases L with
  | nil => contradiction
  | cons s ss => simp [consFirst]

theorem consHead_glue (c : Char) (A Y : List (List Char)) (hA : A ≠ []) (hY : Y ≠ []) :
    consHead c (A.dropLast ++ consFirst (A.getLastD []) Y)
      = (consHead c A).dropLast ++ consFirst ((consHead c A).getLastD []) Y := by
  cases A with
  | nil => contradiction
  | cons a as =>
    cases as with
    | nil =>
      cases Y with
      | nil => contradiction
      | cons y0 ys => simp [consHead, consFirst]
    | cons b bs =>
      cases Y with
      | nil => contradiction
      | cons y0 ys =>
        simp only [consHead, List.dropLast_cons₂, List.getLastD_cons, List.cons_append]

theorem splitRN_append (x y : List Char) (h : '\r' ∉ x) :
    splitRN (x ++ y)
      = (splitRN x).dropLast ++ consFirst ((splitRN x).getLastD []) (splitRN y) := by
  induction x with
  | nil =>
    rw [List.nil_append]
    show splitRN y = [] ++ consFirst [] (splitRN y)
    rw [List.nil_append, consFirst_nil_left _ (splitRN_ne_nil y)]
  | cons c0 x2 ih =>
    have hx2 : '\r' ∉ x2 := fun hm => h (List.mem_cons_of_mem _ hm)
    have hc0 : c0 ≠ '\r' := fun he => h (he ▸ List.mem_cons_self _ _)
    by_cases h1 : c0 = '\n'
    · subst h1
      rw [List.cons_append, splitRN_cons_nl, splitRN_cons_nl, ih hx2]
      cases hS : splitRN x2 with
      | nil => exact absurd hS (splitRN_ne_nil _)
      | cons s ss =>
        simp only [List.getLastD_cons]
        cases ss with
        | nil => simp
        | cons s2 ss2 =>
          simp only [List.dropLast_cons₂, List.cons_append, List.getLastD_cons]
    · rw [List.cons_append, splitRN_cons c0 (x2 ++ y) h1 hc0, splitRN_cons c0 x2 h1 hc0]
      rw [ih hx2]
      exact consHead_glue c0 (splitRN x2) (splitRN y) (splitRN_ne_nil _) (splitRN_ne_nil _)

theorem cleanChunk_no_cr (l : List Char) : '\r' ∉ cleanChunk l := by
  intro h
  have := (List.mem_filter.mp h).2
  simp at this

theorem mem_lastSeg (l : List Char) (c : Char)
    (h : c ∈ (splitRN l).getLastD []) : c ∈ l := by
  apply mem_flatten_splitRN l c
  rw [List.mem_flatten]
  refine ⟨(splitRN l).getLastD [], ?_, h⟩
  rw [List.getLastD_eq_getLast?]
  cases hL : (splitRN l).getLast? with
  | none => exact absurd (by simpa using hL) (splitRN_ne_nil l)
  | some s =>
    have := List.getLast?_eq_getLast (splitRN l) (splitRN_ne_nil l)
    rw [this] at hL
    simp only [Option.getD_some]
    rw [← Option.some.inj hL]
    exact List.getLast_mem _

theorem processRaw_append (buf x z : List Char)
    (hbuf : '\r' ∉ buf) (hx : '\r' ∉ x) :
    processRaw buf (x ++ z)
      = ((processRaw (processRaw buf x).1 z).1,
         (processRaw buf x).2 ++ (processRaw (processRaw buf x).1 z).2) := by
  have hbx : '\r' ∉ buf ++ x := by
    intro hm
    rcases List.mem_append.mp hm with hm | hm
    · exact hbuf hm
    · exact hx hm
  have hb1free : ∀ c ∈ (splitRN (buf ++ x)).getLastD [], c ≠ '\n' ∧ c ≠ '\r' := by
    intro c hc
    constructor
    · intro he; subst he; exact nl_not_mem_lastSeg (buf ++ x) hc
    · intro he; subst he; exact hbx (mem_lastSeg _ _ hc)
  have key : splitRN (buf ++ (x ++ z))
      = (splitRN (buf ++ x)).dropLast
        ++ splitRN ((splitRN (buf ++ x)).getLastD [] ++ z) := by
    rw [← List.append_assoc, splitRN_append (buf ++ x) z hbx]
    rw [splitRN_append ((splitRN (buf ++ x)).getLastD []) z
      (fun hm => (hb1free '\r' hm).2 rfl)]
    rw [splitRN_single _ hb1free]
    rfl
  show ((splitRN (buf ++ (x ++ z))).getLastD [], (splitRN (buf ++ (x ++ z))).dropLast) = _
  rw [key, Prod.mk.injEq]
  constructor
  · rw [getLastD_append _ _ (splitRN_ne_nil _)]
    rfl
  · rw [List.dropLast_append_of_ne_nil _ (splitRN_ne_nil _)]
    rfl

theorem processChunk_eq_processRaw (buf d : List Char) :
    processChunk buf d = processRaw buf (cleanChunk d) := rfl

theorem feedManyLines_eq (ds : List (List Char)) :
    ∀ buf, '\r' ∉ buf → '\n' ∉ buf →
    feedManyLines buf ds = processRaw buf ((ds.map cleanChunk).flatten) := by
  induction ds with
  | nil =>
    intro buf hcr hnl
    have hfree : ∀ c ∈ buf, c ≠ '\n' ∧ c ≠ '\r' := by
      intro c hc
      exact ⟨fun he => hnl (he ▸ hc), fun he => hcr (he ▸ hc)⟩
    show (buf, []) = ((splitRN (buf ++ [])).getLastD [], (splitRN (buf ++ [])).dropLast)
    rw [List.append_nil, splitRN_single buf hfree]
    rfl
  | cons d ds ih =>
    intro buf hcr hnl
    have hx : '\r' ∉ cleanChunk d := cleanChunk_no_cr d
    have hb1 : (processRaw buf (cleanChunk d)).1
        = (splitRN (buf ++ cleanChunk d)).getLastD [] := rfl
    have hcr1 : '\r' ∉ (processRaw buf (cleanChunk d)).1 := by
      rw [hb1]
      intro hm
      rcases List.mem_append.mp (mem_lastSeg _ _ hm) with hm2 | hm2
      · exact hcr hm2
      · exact hx hm2
    have hnl1 : '\n' ∉ (processRaw buf (cleanChunk d)).1 := by
      rw [hb1]
      exact nl_not_mem_lastSeg _
    show (let r := processChunk buf d
          let r2 := feedManyLines r.1 ds
          (r2.1, r.2 ++ r2.2)) = _
    rw [processChunk_eq_processRaw]
    show ((feedManyLines (processRaw buf (cleanChunk d)).1 ds).1,
          (processRaw buf (cleanChunk d)).2
            ++ (feedManyLines (processRaw buf (cleanChunk d)).1 ds).2) = _
    rw [ih _ hcr1 hnl1]
    rw [List.map_cons, List.flatten_cons]
    rw [processRaw_append buf (cleanChunk d) ((ds.map cleanChunk).flatten) hcr hx]

theorem deliverLines_append {α : Type} (v : List Char → Except String α)
    (L1 L2 : List (List Char)) :
    deliverLines v (L1 ++ L2) = deliverLines v L1 ++ deliverLines v L2 := by
  induction L1 with
  | nil => rfl
  | cons l ls ih =>
    by_cases h : jsTrim l = []
    · simp only [List.cons_append, deliverLines, if_pos h, List.append_eq, ih]
    · cases hv : v l with
      | ok m => simp only [List.cons_append, deliverLines, if_neg h, hv, List.append_eq, ih]
      | error e => simp only [List.cons_append, deliverLines, if_neg h, hv, List.append_eq, ih]

theorem feedManyMsgs_eq_deliver {α : Type} (v : List Char → Except String α)
    (ds : List (List Char)) : ∀ buf,
    feedManyMsgs v buf ds
      = ((feedManyLines buf ds).1, deliverLines v (feedManyLines buf ds).2) := by
  induction ds with
  | nil => intro buf; rfl
  | cons d ds ih =>
    intro buf
    show ((feedManyMsgs v (processChunk buf d).1 ds).1,
          deliverLines v (processChunk buf d).2
            ++ (feedManyMsgs v (processChunk buf d).1 ds).2) = _
    rw [ih]
    show _ = ((feedManyLines (processChunk buf d).1 ds).1,
          deliverLines v ((processChunk buf d).2
            ++ (feedManyLines (processChunk buf d).1 ds).2))
    rw [deliverLines_append]

end WCT

namespace WCT

/-! ## Claim C1: chunking invariance of the frame decoder -/

/-- C1 (counterexample): the claim *as stated* is false.  The stream
`ESC [ 3 1 m {"jsonrpc":"2.0","method":"a"} \n` fed as a single chunk has its
color sequence stripped, delivering the JSON-RPC line; fed as two chunks split
inside the ANSI escape sequence, the per-chunk cleaning deletes the dangling
`ESC` and the leftover `[31m` leaks into the decoded line, so the decoder
delivers a different line sequence to the message-callback stage. -/
theorem chunking_counterexample :
    (feedManyLines []
        ["\x1b[3".data, "1m\x7b\"jsonrpc\":\"2.0\",\"method\":\"a\"\x7d\n".data]).2
      ≠ (feedManyLines []
        ["\x1b[3\x31m\x7b\"jsonrpc\":\"2.0\",\"method\":\"a\"\x7d\n".data]).2 := by
  decide

/-- C1 (amended): for any two chunkings of the same character stream such that
per-chunk cleaning agrees with whole-stream cleaning (in particular, whenever
no chunk boundary falls inside an ANSI escape sequence), the decoder emits the
same sequence of candidate lines and the same final buffer, and therefore
delivers the same message sequence to the message callback for every
validator. -/
theorem chunking_invariance {α : Type} (v : List Char → Except String α)
    (cs1 cs2 : List (List Char))
    (hsame : cs1.flatten = cs2.flatten)
    (hd1 : cleanChunk cs1.flatten = (cs1.map cleanChunk).flatten)
    (hd2 : cleanChunk cs2.flatten = (cs2.map cleanChunk).flatten) :
    feedManyLines [] cs1 = feedManyLines [] cs2
      ∧ feedManyMsgs v [] cs1 = feedManyMsgs v [] cs2 := by
  have h1 : feedManyLines [] cs1 = feedManyLines [] cs2 := by
    rw [feedManyLines_eq cs1 [] (by simp) (by simp),
        feedManyLines_eq cs2 [] (by simp) (by simp)]
    rw [← hd1, ← hd2, hsame]
  refine ⟨h1, ?_⟩
  rw [feedManyMsgs_eq_deliver, feedManyMsgs_eq_deliver, h1]

/-- Witness for `chunking_invariance` at a concrete pair of chunkings of the
stream `ab\nc` (boundaries at different places, none inside an escape). -/
theorem chunking_invariance_witness :
    ((["ab\n".data, "c".data] : List (List Char)).flatten
        = (["a".data, "b\nc".data] : List (List Char)).flatten)
    ∧ (cleanChunk (["ab\n".data, "c".data] : List (List Char)).flatten
        = ((["ab\n".data, "c".data] : List (List Char)).map cleanChunk).flatten)
    ∧ (cleanChunk (["a".data, "b\nc".data] : List (List Char)).flatten
        = ((["a".data, "b\nc".data] : List (List Char)).map cleanChunk).flatten)
    ∧ (feedManyLines [] ["ab\n".data, "c".data]
          = feedManyLines [] ["a".data, "b\nc".data]
        ∧ feedManyMsgs rejectAll [] ["ab\n".data, "c".data]
          = feedManyMsgs rejectAll [] ["a".data, "b\nc".data]) :=
  ⟨by decide, by decide, by decide,
    chunking_invariance rejectAll ["ab\n".data, "c".data] ["a".data, "b\nc".data]
      (by decide) (by decide) (by decide)⟩

/-! ## Claim C6: validator policy of the delivery loop -/

theorem deliverLines_eq_filterMap {α : Type} (v : List Char → Except String α)
    (ls : List (List Char)) :
    deliverLines v ls
      = (ls.filter (fun l => !(jsTrim l).isEmpty)).filterMap
          (fun l => (v l).toOption) := by
  induction ls with
  | nil => rfl
  | cons l ls ih =>
    by_cases h : jsTrim l = []
    · have hb : (!(jsTrim l).isEmpty) = false := by simp [List.isEmpty_iff, h]
      simp only [deliverLines, if_pos h, List.filter_cons, hb, ih]
      simp
    · have hb : (!(jsTrim l).isEmpty) = true := by
        simp only [Bool.not_eq_true', ← Bool.not_eq_true, List.isEmpty_iff]
        exact h
      cases hv : v l with
      | ok m =>
        simp only [deliverLines, if_neg h, hv, ih]
        simp [List.filter_cons, hb, List.filterMap_cons, hv, Except.toOption]
      | error e =>
        simp only [deliverLines, if_neg h, hv, ih]
        simp [List.filter_cons, hb, List.filterMap_cons, hv, Except.toOption]

/-- C6: in `_handleProcessOutput`, the messages delivered to the message
callback are exactly the validator outputs of the non-blank candidate lines
that the validator accepts, in order; a line that fails JSON parsing or
schema validation contributes nothing, the error callback never fires inside
the loop (the model of the loop has no error output at all, mirroring the
empty catch block), and no failure escapes: the function is total and
processes every line of the chunk. -/
theorem validator_policy {α : Type} (v : List Char → Except String α)
    (buf data : List Char) :
    (handleProcessOutput v buf data).2
      = ((processChunk buf data).2.filter (fun l => !(jsTrim l).isEmpty)).filterMap
          (fun l => (v l).toOption) := by
  show deliverLines v (processChunk buf data).2 = _
  rw [deliverLines_eq_filterMap]

end WCT

namespace WCT

/-! ## Claim C8: the already-started guard -/

/-- C8: calling `start()` on an instance whose started flag is already true
raises the "already started" usage error immediately: the state is unchanged,
no status callback fires, no command is spawned, and the error callback does
not fire (the throw happens before the try block). -/
theorem already_started_guard (env : Env) (opts : TOpts) (st : TState)
    (h : st.started = true) :
    start env opts st = ⟨st, [], [], [], .error .alreadyStarted⟩ := by
  simp [start, h]

/-- Witness for `already_started_guard` at a concrete started state. -/
theorem already_started_guard_witness :
    (⟨true, true, true, true⟩ : TState).started = true
    ∧ start ⟨true, true, true, true⟩ (.spawn ⟨"node", ["x"], none⟩)
          ⟨true, true, true, true⟩
        = ⟨⟨true, true, true, true⟩, [], [], [], .error .alreadyStarted⟩ :=
  ⟨rfl, already_started_guard ⟨true, true, true, true⟩
    (.spawn ⟨"node", ["x"], none⟩) ⟨true, true, true, true⟩ rfl⟩

/-! ## Claim C7: failure rollback in start() -/

/-- C7: whenever `start()` on a not-yet-started instance settles with an
error, the error callback has fired with exactly that error and the started
flag has been rolled back to false. -/
theorem start_failure_rollback (env : Env) (opts : TOpts) (st : TState) (e : TErr)
    (h0 : st.started = false)
    (h : (start env opts st).result = .error e) :
    (start env opts st).errors = [e]
      ∧ (start env opts st).state.started = false := by
  rcases env with ⟨b, m, i, sp⟩
  cases opts with
  | files o =>
    cases b <;> cases m <;> cases i <;> cases sp <;>
      by_cases hm : manifestTruthy o.files <;>
      simp_all [start]
  | spawn o =>
    cases b <;> cases sp <;> simp_all [start]

/-- Witness for `start_failure_rollback` at a concrete boot failure. -/
theorem start_failure_rollback_witness :
    ((⟨false, false, false, false⟩ : TState).started = false)
    ∧ ((start ⟨false, true, true, true⟩ (.spawn ⟨"node", ["x"], none⟩)
          ⟨false, false, false, false⟩).result = .error .bootFail)
    ∧ ((start ⟨false, true, true, true⟩ (.spawn ⟨"node", ["x"], none⟩)
          ⟨false, false, false, false⟩).errors = [.bootFail]
      ∧ (start ⟨false, true, true, true⟩ (.spawn ⟨"node", ["x"], none⟩)
          ⟨false, false, false, false⟩).state.started = false) :=
  ⟨rfl, by decide,
    start_failure_rollback ⟨false, true, true, true⟩ (.spawn ⟨"node", ["x"], none⟩)
      ⟨false, false, false, false⟩ .bootFail rfl (by decide)⟩

/-! ## Claim C3: status sequences of a successful start() -/

/-- C3 (counterexample): the claim *as stated* is false.  A files-variant
configuration whose mapping has a manifest entry with empty-string content
starts successfully, yet the status sequence is `booting, mounting, running`
and not `booting, mounting, installing, running`: the source guards the
install step with JavaScript truthiness of the content, not key presence. -/
theorem status_sequence_counterexample :
    ((start ⟨true, true, true, true⟩
        (.files ⟨[("index.js", "x"), ("package.json", "")], none⟩)
        ⟨false, false, false, false⟩).result = .ok ())
    ∧ lookupFile [("index.js", "x"), ("package.json", "")] "package.json" = some ""
    ∧ ((start ⟨true, true, true, true⟩
        (.files ⟨[("index.js", "x"), ("package.json", "")], none⟩)
        ⟨false, false, false, false⟩).statuses
        ≠ [.booting, .mounting, .installing, .running]) := by
  refine ⟨by decide, by decide, by decide⟩

/-- C3 (amended): for every successful `start()`, the status sequence is
exactly `booting, mounting, installing, running` for a files configuration
whose mapping has a manifest entry with non-empty content, exactly
`booting, mounting, running` for a files configuration with no manifest entry
or an empty-content one, and exactly `booting, running` for a spawn
configuration; in particular each named status fires exactly once and in that
order. -/
theorem status_sequences (env : Env) (opts : TOpts) (st : TState)
    (h : (start env opts st).result = .ok ()) :
    (start env opts st).statuses
      = match opts with
        | .files o =>
          if manifestTruthy o.files then
            [.booting, .mounting, .installing, .running]
          else [.booting, .mounting, .running]
        | .spawn _ => [.booting, .running] := by
  rcases env with ⟨b, m, i, sp⟩
  cases hst : st.started
  · cases opts with
    | files o =>
      cases b <;> cases m <;> cases i <;> cases sp <;>
        by_cases hm : manifestTruthy o.files <;>
        simp [start, hst, hm] at h ⊢
    | spawn o =>
      cases b <;> cases sp <;> simp [start, hst] at h ⊢
  · simp [start, hst] at h

/-- Witness for `status_sequences` at a concrete successful files start. -/
theorem status_sequences_witness :
    ((start ⟨true, true, true, true⟩
        (.files ⟨[("package.json", "p")], none⟩) ⟨false, false, false, false⟩).result
      = .ok ())
    ∧ (start ⟨true, true, true, true⟩
        (.files ⟨[("package.json", "p")], none⟩) ⟨false, false, false, false⟩).statuses
      = [.booting, .mounting, .installing, .running] := by
  refine ⟨by decide, ?_⟩
  have h := status_sequences ⟨true, true, true, true⟩
    (.files ⟨[("package.json", "p")], none⟩) ⟨false, false, false, false⟩ (by decide)
  simpa using h

/-! ## Claim C4: the install-step guard -/

/-- C4 (counterexample): the claim *as stated* is false.  With the mapping
containing the key `package.json` bound to the empty string, the install step
does not run: no `installing` status fires and `npm install` is not spawned,
although the key is present — the guard is content truthiness, not key
presence. -/
theorem install_guard_counterexample :
    lookupFile [("package.json", "")] "package.json" = some ""
    ∧ Status.installing ∉ (start ⟨true, true, true, true⟩
        (.files ⟨[("package.json", "")], none⟩) ⟨false, false, false, false⟩).statuses
    ∧ ("npm", ["install"]) ∉ (start ⟨true, true, true, true⟩
        (.files ⟨[("package.json", "")], none⟩) ⟨false, false, false, false⟩).spawns := by
  refine ⟨by decide, by decide, by decide⟩

/-- C4 (amended): during `start()` with a files configuration, once boot and
mount succeed, the dependency-install step runs if and only if the file
mapping contains the key `package.json` with a non-empty content string
(JavaScript truthiness of the entry); when it runs, the spawned install
command is exactly `npm install`, not configurable. -/
theorem install_guard (env : Env) (o : FilesOpts) (st : TState)
    (h0 : st.started = false) (hb : env.bootOk = true) (hm : env.mountOk = true) :
    (Status.installing ∈ (start env (.files o) st).statuses
        ↔ manifestTruthy o.files = true)
    ∧ (("npm", ["install"]) ∈ (start env (.files o) st).spawns
        ↔ manifestTruthy o.files = true) := by
  rcases env with ⟨b, m, i, sp⟩
  cases hb
  cases hm
  cases i <;> cases sp <;> by_cases hmt : manifestTruthy o.files <;>
    simp_all [start]

/-- Witness for `install_guard` at a concrete non-empty manifest. -/
theorem install_guard_witness :
    ((⟨false, false, false, false⟩ : TState).started = false)
    ∧ ((⟨true, true, true, true⟩ : Env).bootOk = true)
    ∧ ((⟨true, true, true, true⟩ : Env).mountOk = true)
    ∧ ((Status.installing ∈ (start ⟨true, true, true, true⟩
          (.files ⟨[("package.json", "p")], none⟩) ⟨false, false, false, false⟩).statuses
        ↔ manifestTruthy [("package.json", "p")] = true)
      ∧ (("npm", ["install"]) ∈ (start ⟨true, true, true, true⟩
          (.files ⟨[("package.json", "p")], none⟩) ⟨false, false, false, false⟩).spawns
        ↔ manifestTruthy [("package.json", "p")] = true)) :=
  ⟨rfl, rfl, rfl,
    install_guard ⟨true, true, true, true⟩ ⟨[("package.json", "p")], none⟩
      ⟨false, false, false, false⟩ rfl rfl rfl⟩

end WCT

namespace WCT

/-! ## Claim C2: the writer acquire/release discipline of send() -/

/-- C2 (counterexample): the claim *as stated* is false.  With a process
handle present and the writer initially unlocked, a `send` whose underlying
write fails settles with the write error — but the writer lock is still held
when the call settles: the source releases the lock only after a successful
write, and the catch block does not release it. -/
theorem send_release_counterexample :
    ((send false ⟨true, true, true, true⟩ false).result = .error .writeFail)
    ∧ (send false ⟨true, true, true, true⟩ false).locked = true := by
  refine ⟨by decide, by decide⟩

/-- C2 (amended): with a process handle present and the writer unlocked, a
`send` whose write succeeds releases the writer before settling, so two
sequential sends both succeed whenever the process accepts input; a `send`
whose write fails fires the error callback with the write error and
propagates it to the caller, but leaves the writer locked. -/
theorem send_discipline (st : TState) (h : st.hasProc = true) :
    ((send true st false).result = .ok ()
      ∧ (send true st false).locked = false
      ∧ (send true (send true st false).state (send true st false).locked).result
          = .ok ())
    ∧ ((send false st false).errors = [.writeFail]
      ∧ (send false st false).result = .error .writeFail
      ∧ (send false st false).locked = true) := by
  simp [send, h]

/-- Witness for `send_discipline` at a concrete running state. -/
theorem send_discipline_witness :
    ((⟨true, true, true, true⟩ : TState).hasProc = true)
    ∧ (((send true ⟨true, true, true, true⟩ false).result = .ok ()
      ∧ (send true ⟨true, true, true, true⟩ false).locked = false
      ∧ (send true (send true ⟨true, true, true, true⟩ false).state
            (send true ⟨true, true, true, true⟩ false).locked).result = .ok ())
    ∧ ((send false ⟨true, true, true, true⟩ false).errors = [.writeFail]
      ∧ (send false ⟨true, true, true, true⟩ false).result = .error .writeFail
      ∧ (send false ⟨true, true, true, true⟩ false).locked = true)) :=
  ⟨rfl, send_discipline ⟨true, true, true, true⟩ rfl⟩

/-! ## Claim C5: close() always completes and fires the close callback -/

/-- C5 (counterexample): the claim *as stated* is false.  After a failed
`start()` whose boot succeeded but whose mount failed, the instance is not
started yet holds an environment handle; `close()` then fires the
`teardowned` status callback, contradicting the claim that no status
callbacks fire when closing after a failed start. -/
theorem close_status_counterexample :
    ((start ⟨true, false, true, true⟩ (.files ⟨[("index.js", "x")], none⟩)
        ⟨false, false, false, false⟩).result = .error .mountFail)
    ∧ statusEvents (close true true
        (start ⟨true, false, true, true⟩ (.files ⟨[("index.js", "x")], none⟩)
          ⟨false, false, false, false⟩).state).events
      = [.teardowned] := by
  refine ⟨by decide, by decide⟩

/-- C5 (amended): every `close()` call completes without raising (the model
is a total function because every fallible step is wrapped) and fires the
close callback exactly once, regardless of kill or teardown outcomes; when
called before any `start()` (no flags set, no handles held) it fires no
status callback; after a failed start that retained an environment handle it
fires exactly the `teardowned` status (never `unmounting`). -/
theorem close_total (killOk teardownOk : Bool) (st : TState) :
    ((close killOk teardownOk st).events.count CEv.closeCb = 1)
    ∧ (st.started = false → st.hasWC = false → st.hasProc = false →
        statusEvents (close killOk teardownOk st).events = [])
    ∧ (st.started = false → st.hasWC = true →
        statusEvents (close killOk teardownOk st).events = [.teardowned]) := by
  rcases st with ⟨s, i, w, p⟩
  cases s <;> cases w <;> cases p <;> cases killOk <;>
    simp [close, statusEvents, List.count_cons]

/-- Witness for `close_total` at the initial state (close before start). -/
theorem close_total_witness :
    ((close true true ⟨false, false, false, false⟩).events.count CEv.closeCb = 1)
    ∧ statusEvents (close true true ⟨false, false, false, false⟩).events = [] :=
  ⟨(close_total true true ⟨false, false, false, false⟩).1,
    (close_total true true ⟨false, false, false, false⟩).2.1 rfl rfl rfl⟩

/-! ## Claim C9: the fixed grace delay in close() -/

/-- C9 (counterexample): the claim *as stated* is false.  With a process
handle present, if the kill operation itself throws, the 1000 ms grace delay
is skipped: the exception jumps from `kill?.()` straight into the catch
block, past the awaited timeout, so no delay event occurs in the trace. -/
theorem grace_delay_counterexample :
    ((⟨true, true, true, true⟩ : TState).hasProc = true)
    ∧ CEv.delayMs 1000 ∉ (close false true ⟨true, true, true, true⟩).events := by
  refine ⟨rfl, by decide⟩

/-- C9 (amended): in every `close()` with a process handle present whose kill
step does not throw, the fixed 1000 ms grace delay is awaited immediately
after the kill attempt and before the teardown attempt (the full event trace
is given, fixing the order); when the kill throws, the delay is skipped. -/
theorem grace_delay (killOk teardownOk : Bool) (st : TState)
    (h : st.hasProc = true) :
    (killOk = true →
      (close killOk teardownOk st).events
        = (if st.started then [CEv.status .unmounting] else [])
          ++ [CEv.killAttempt, CEv.delayMs 1000]
          ++ (if st.hasWC then [CEv.status .teardowned, CEv.teardownAttempt] else [])
          ++ [CEv.closeCb])
    ∧ (killOk = false → CEv.delayMs 1000 ∉ (close killOk teardownOk st).events) := by
  rcases st with ⟨s, i, w, p⟩
  cases h
  cases s <;> cases w <;> cases killOk <;> simp [close]

/-- Witness for `grace_delay` at a concrete fully-running state. -/
theorem grace_delay_witness :
    ((⟨true, true, true, true⟩ : TState).hasProc = true)
    ∧ (close true true ⟨true, true, true, true⟩).events
        = [CEv.status .unmounting, CEv.killAttempt, CEv.delayMs 1000,
           CEv.status .teardowned, CEv.teardownAttempt, CEv.closeCb] := by
  refine ⟨rfl, ?_⟩
  have h := (grace_delay true true ⟨true, true, true, true⟩ rfl).1 rfl
  simpa using h

/-! ## Claim C10: the TransportState invariant -/

/-- C10: every public operation preserves the `TransportState` invariant:
starting from a state where `initialized` implies `started` and a process
handle implies `started` with an environment handle, the state after
`start()` (any collaborator outcomes, any options) and after `close()`
satisfies the same invariant, and `send()` does not modify the transport
state at all; in particular whenever `start()` or `close()` settles,
`initialized = true` requires `started = true`, and `started = false` implies
no process handle is held. -/
theorem invariant_preserved (env : Env) (opts : TOpts) (st : TState)
    (killOk teardownOk writeOk locked : Bool) (h : Inv st) :
    Inv (start env opts st).state
    ∧ Inv (close killOk teardownOk st).state
    ∧ (send writeOk st locked).state = st
    ∧ Inv (send writeOk st locked).state := by
  have hstart : Inv (start env opts st).state := by
    cases hs : st.started
    · have hi : st.initialized = false := by
        cases hi2 : st.initialized
        · rfl
        · exact absurd (h.1 hi2) (by simp [hs])
      have hp : st.hasProc = false := by
        cases hp2 : st.hasProc
        · rfl
        · exact absurd (h.2 hp2).1 (by simp [hs])
      rcases env with ⟨b, m, ii, sp⟩
      cases opts with
      | files o =>
        cases b <;> cases m <;> cases ii <;> cases sp <;>
          by_cases hmt : manifestTruthy o.files <;>
          simp [start, Inv, hs, hi, hp, hmt]
      | spawn o =>
        cases b <;> cases sp <;> simp [start, Inv, hs, hi, hp]
    · have hrw : (start env opts st).state = st := by simp [start, hs]
      rw [hrw]
      exact h
  have hsend : (send writeOk st locked).state = st := by
    cases hpr : st.hasProc <;> cases locked <;> cases writeOk <;> simp [send, hpr]
  refine ⟨hstart, ?_, hsend, ?_⟩
  · simp [close, Inv]
  · rw [hsend]
    exact h

/-- Witness for `invariant_preserved` at a concrete running state. -/
theorem invariant_preserved_witness :
    Inv (⟨true, true, true, true⟩ : TState)
    ∧ (Inv (start ⟨true, true, true, true⟩ (.spawn ⟨"node", ["x"], none⟩)
          ⟨true, true, true, true⟩).state
      ∧ Inv (close true true ⟨true, true, true, true⟩).state
      ∧ (send true ⟨true, true, true, true⟩ false).state = ⟨true, true, true, true⟩
      ∧ Inv (send true ⟨true, true, true, true⟩ false).state) :=
  ⟨by decide,
    invariant_preserved ⟨true, true, true, true⟩ (.spawn ⟨"node", ["x"], none⟩)
      ⟨true, true, true, true⟩ true true true false (by decide)⟩

end WCT
